import Mathlib

/-!
# HTML → AsciiDoc converter, verified against its specification

Shallow embedding of `src/gulp/helpers/html-to-asciidoc.js` (the converter
engine) and of the title post-processing step of
`src/gulp/tasks/generate-asciidoc.js`.

Modelling conventions:
* A parsed DOM node is the inductive `Node`: a text node (`nodeType === 3`)
  or an element node (`nodeType === 1`) with tag name, attribute list and
  ordered children.  `parse(html)` itself is outside the embedding: claims
  about concrete HTML inputs are stated on the corresponding parsed trees
  (the inputs in question contain no inter-tag whitespace, so the trees are
  unambiguous).  The parser's root is an element with empty tag name whose
  children are the top-level nodes, exactly as in `node-html-parser`.
* The mutable `this.listDepth` counter is threaded explicitly: every
  stateful renderer takes the current depth (an `Int`, as JS numbers are
  not restricted to naturals by the language) and returns the output
  string together with the depth it leaves behind.
* The recursion of `processNode` descends into query results
  (`querySelector('.content')`), which structural recursion on the tree
  does not cover, so the stateful renderers are defined by structural
  recursion on an explicit fuel.  The fuel is an embedding device only:
  `convert` supplies `1 + listWeight fragment`, which the call analysis
  shows is never exhausted, and every general theorem is stated for an
  arbitrary fuel so no claim depends on the fuel being large enough.
* JS string primitives (`trim`, `split`, `join`, `toLowerCase`,
  `toUpperCase`, `repeat`, `startsWith`) are modelled directly on the
  character list underlying `String`, keeping every definition reducible
  by `decide`.
-/

/-- A parsed DOM node: text node or element node with tag, attributes and
ordered children, as produced by `node-html-parser`'s `parse`. -/
inductive Node where
  | text (s : String)
  | elem (tag : String) (attrs : List (String × String)) (children : List Node)

mutual
/-- Decidable equality of nodes (the automatic derivation does not handle
the nested occurrence of `List Node`). -/
def nodeDecEq : ∀ a b : Node, Decidable (a = b)
  | .text s, .text t =>
    match decEq s t with
    | isTrue h => isTrue (by rw [h])
    | isFalse h => isFalse (fun hh => h (by injection hh))
  | .text _, .elem _ _ _ => isFalse (fun h => Node.noConfusion h)
  | .elem _ _ _, .text _ => isFalse (fun h => Node.noConfusion h)
  | .elem t1 a1 c1, .elem t2 a2 c2 =>
    match decEq t1 t2, decEq a1 a2, nodesDecEq c1 c2 with
    | isTrue h1, isTrue h2, isTrue h3 => isTrue (by rw [h1, h2, h3])
    | isFalse h1, _, _ => isFalse (fun hh => h1 (by injection hh))
    | _, isFalse h2, _ => isFalse (fun hh => h2 (by injection hh))
    | _, _, isFalse h3 => isFalse (fun hh => h3 (by injection hh))
/-- Decidable equality of node lists. -/
def nodesDecEq : ∀ a b : List Node, Decidable (a = b)
  | [], [] => isTrue rfl
  | [], _ :: _ => isFalse (fun h => List.noConfusion h)
  | _ :: _, [] => isFalse (fun h => List.noConfusion h)
  | x :: xs, y :: ys =>
    match nodeDecEq x y, nodesDecEq xs ys with
    | isTrue h1, isTrue h2 => isTrue (by rw [h1, h2])
    | isFalse h1, _ => isFalse (fun hh => h1 (by injection hh))
    | _, isFalse h2 => isFalse (fun hh => h2 (by injection hh))
end

instance : DecidableEq Node := nodeDecEq

/-! ## JS string primitives -/

/-- Whitespace for JS `trim` / class-list splitting (the inputs are ASCII). -/
def isWs (c : Char) : Bool := c = ' ' || c = '\t' || c = '\n' || c = '\r'

/-- JS `String.prototype.trim`. -/
def jsTrim (s : String) : String :=
  String.mk (((s.data.dropWhile isWs).reverse.dropWhile isWs).reverse)

/-- JS `str.split('\n')` on the character list: always returns at least one
piece, pieces contain no newline, separators are consumed. -/
def splitNlL : List Char → List (List Char)
  | [] => [[]]
  | c :: cs =>
    if c = '\n' then [] :: splitNlL cs
    else
      match splitNlL cs with
      | [] => [[c]]
      | l :: ls => (c :: l) :: ls

/-- JS `str.split('\n')`. -/
def splitNl (s : String) : List String := (splitNlL s.data).map String.mk

/-- JS `lines.join('\n')` on character lists. -/
def joinNlL : List (List Char) → List Char
  | [] => []
  | [l] => l
  | l :: ls => l ++ '\n' :: joinNlL ls

/-- JS `lines.join('\n')`. -/
def joinNl (ls : List String) : String := String.mk (joinNlL (ls.map String.data))

/-- Splitting on whitespace runs, for `classList` membership. -/
def splitWsL : List Char → List (List Char)
  | [] => [[]]
  | c :: cs =>
    if isWs c then [] :: splitWsL cs
    else
      match splitWsL cs with
      | [] => [[c]]
      | l :: ls => (c :: l) :: ls

/-- ASCII lowering of one character (JS `toLowerCase` on the tag names and
attribute values that occur, which are ASCII). -/
def lowerChar (c : Char) : Char :=
  if 'A' ≤ c && c ≤ 'Z' then Char.ofNat (c.toNat + 32) else c

/-- ASCII raising of one character (JS `toUpperCase`). -/
def upperChar (c : Char) : Char :=
  if 'a' ≤ c && c ≤ 'z' then Char.ofNat (c.toNat - 32) else c

/-- JS `String.prototype.toLowerCase`. -/
def jsToLower (s : String) : String := String.mk (s.data.map lowerChar)

/-- JS `String.prototype.toUpperCase`. -/
def jsToUpper (s : String) : String := String.mk (s.data.map upperChar)

/-- Concatenation of a list of strings (JS `join('')`). -/
def strJoin : List String → String
  | [] => ""
  | s :: rest => s ++ strJoin rest

/-- JS `marker.repeat(n)`. -/
def repeatStr (s : String) (n : Nat) : String := strJoin (List.replicate n s)

/-- JS `lines[0].startsWith('= ')`. -/
def startsTitle (s : String) : Bool :=
  match s.data with
  | '=' :: ' ' :: _ => true
  | _ => false

/-! ## Tree queries (the selector shapes the engine uses) -/

/-- `node.getAttribute(name)`: `none` models JS `undefined`. -/
def lookupAttr (attrs : List (String × String)) (name : String) : Option String :=
  (attrs.find? (fun p => p.1 = name)).map (fun p => p.2)

/-- `node.getAttribute(name)` on a node (text nodes have no attributes). -/
def getAttribute (n : Node) (name : String) : Option String :=
  match n with
  | .text _ => none
  | .elem _ attrs _ => lookupAttr attrs name

/-- `node.classList.contains(c)`: the `class` attribute split on whitespace. -/
def hasClass (attrs : List (String × String)) (c : String) : Bool :=
  (((lookupAttr attrs "class").getD "").data |> splitWsL).map String.mk |>.contains c

/-- Lowercased tag name of a node (`''` for text nodes, as in the source's
`node.tagName ? node.tagName.toLowerCase() : ''`). -/
def tagLower (n : Node) : String :=
  match n with
  | .text _ => ""
  | .elem tag _ _ => jsToLower tag

/-- Children of a node (text nodes have none). -/
def childrenOf (n : Node) : List Node :=
  match n with
  | .text _ => []
  | .elem _ _ cs => cs

mutual
/-- All element descendants of a node, itself included, in document
(pre-order) order — the traversal order of `querySelectorAll`. -/
def nodeDescendants : Node → List Node
  | .text _ => []
  | .elem tag attrs cs => Node.elem tag attrs cs :: descendantsList cs
/-- All element descendants of the nodes of a list, in document order. -/
def descendantsList : List Node → List Node
  | [] => []
  | c :: rest => nodeDescendants c ++ descendantsList rest
end

/-- `node.querySelector('.c')`: first descendant carrying class `c`. -/
def findByClass (cs : List Node) (c : String) : Option Node :=
  (descendantsList cs).find? (fun n =>
    match n with
    | .text _ => false
    | .elem _ attrs _ => hasClass attrs c)

/-- `node.querySelector(tag)`: first descendant with the given tag. -/
def findByTag (cs : List Node) (t : String) : Option Node :=
  (descendantsList cs).find? (fun n => tagLower n = t)

/-- `node.querySelectorAll(tags)`: all descendants with one of the tags. -/
def descendantsTag (cs : List Node) (tags : List String) : List Node :=
  (descendantsList cs).filter (fun n => tags.contains (tagLower n))

/-- `node.querySelectorAll(':scope > li')`: direct `li` children. -/
def directLi (cs : List Node) : List Node := cs.filter (fun n => tagLower n = "li")

mutual
/-- `node.querySelector('.icon i')` on one node: first `i` element, in
document order, below an ancestor (within the searched subtree) carrying
class `icon`.  The flag records whether such an ancestor has been seen. -/
def findIconIAux : Node → Bool → Option Node
  | .text _, _ => none
  | .elem tag attrs cs, ins =>
    if ins && jsToLower tag = "i" then some (Node.elem tag attrs cs)
    else findIconIList cs (ins || hasClass attrs "icon")
/-- `findIconIAux` over a sibling list, leftmost match first. -/
def findIconIList : List Node → Bool → Option Node
  | [], _ => none
  | c :: rest, ins =>
    match findIconIAux c ins with
    | some r => some r
    | none => findIconIList rest ins
end

/-- `node.querySelector('.icon i')` over a node's children. -/
def findIconI (cs : List Node) : Option Node := findIconIList cs false

mutual
/-- `getTextContent(node)`: concatenated text of all descendant text nodes
in document order, ignoring markup. -/
def getTextContent : Node → String
  | .text s => s
  | .elem _ _ cs => getTextContentList cs
/-- `getTextContent` over a list of children (`childNodes.map(...).join('')`). -/
def getTextContentList : List Node → String
  | [] => ""
  | c :: rest => getTextContent c ++ getTextContentList rest
end

/-! ## Language extraction (`extractLanguage`) -/

/-- JS `\w`: ASCII letters, digits and underscore. -/
def isWordChar (c : Char) : Bool := c.isAlpha || c.isDigit || c = '_'

/-- The literal searched for by the regex `/language-(\w+)/`. -/
def langKey : List Char := "language-".data

/-- Leftmost match of the JS regex `/language-(\w+)/` over the `class`
attribute: the first position where `language-` is followed by at least one
word character; the capture is the maximal word-character run there. -/
def langMatch : List Char → Option String
  | [] => none
  | c :: cs =>
    if langKey.isPrefixOf (c :: cs) && !(((c :: cs).drop 9).takeWhile isWordChar).isEmpty then
      some (String.mk (((c :: cs).drop 9).takeWhile isWordChar))
    else langMatch cs

/-- `extractLanguage(codeNode)`: regex match on `class`, else a truthy
`data-lang` attribute, else `'text'`. -/
def extractLanguage (codeNode : Node) : String :=
  let classList := (getAttribute codeNode "class").getD ""
  match langMatch classList.data with
  | some w => w
  | none =>
    let dataLang := (getAttribute codeNode "data-lang").getD ""
    if dataLang = "" then "text" else dataLang

/-! ## Pure structural handlers (`processTable`, admonition label) -/

/-- The admonition label of `processAdmonition`: the icon element's `title`
attribute uppercased, with `NOTE` when the icon is missing or the
uppercased title is empty (JS `title.toUpperCase() || 'NOTE'`). -/
def admonitionLabel (cs : List Node) : String :=
  match findIconI cs with
  | some iconEl =>
    let title := (getAttribute iconEl "title").getD ""
    if jsToUpper title = "" then "NOTE" else jsToUpper title
  | none => "NOTE"

/-- One table cell line: `|*` for `th`, `|` for `td`, then the trimmed
plain-text content and a newline. -/
def cellLine (cell : Node) : String :=
  (if tagLower cell = "th" then "|*" else "|") ++ jsTrim (getTextContent cell) ++ "\n"

/-- `row.querySelectorAll('th, td')`. -/
def rowCells (row : Node) : List Node := descendantsTag (childrenOf row) ["th", "td"]

/-- `processTable(node)`: empty output when the table has no `tr`
descendant, else the `[cols="*"]` header, one line per cell in row-major
document order, and the closing delimiter. -/
def processTable (cs : List Node) : String :=
  let rows := descendantsTag cs ["tr"]
  if rows.isEmpty then ""
  else
    (rows.foldl
        (fun acc row => (rowCells row).foldl (fun acc2 cell => acc2 ++ cellLine cell) acc)
        "[cols=\"*\"]\n|===\n") ++
      "|===\n\n"

/-! ## The recursive renderer (`processNode` with threaded list depth)

The three functions below are `processNode`, `processChildren` and the
`forEach` loop of `processList`, with `this.listDepth` threaded through as
the `Int` argument and result (the JS `++`/`--` pair becomes: enter the
list branch with `d + 1`, return `· - 1` of the depth the items leave).
The leading `Nat` is recursion fuel (see the file header): every branch of
the original becomes a branch here with fuel passed down. -/

mutual
/-- `processNode(node)` at a given list depth. -/
def processNodeF : Nat → Node → Int → String × Int
  | 0, _, d => ("", d)
  | Nat.succ _, Node.text s, d => (s, d)
  | Nat.succ f, Node.elem tag0 attrs cs, d =>
    let tag := jsToLower tag0
    if tag = "h1" then ("= " ++ getTextContentList cs ++ "\n\n", d)
    else if tag = "h2" then ("== " ++ getTextContentList cs ++ "\n\n", d)
    else if tag = "h3" then ("=== " ++ getTextContentList cs ++ "\n\n", d)
    else if tag = "h4" then ("==== " ++ getTextContentList cs ++ "\n\n", d)
    else if tag = "h5" then ("===== " ++ getTextContentList cs ++ "\n\n", d)
    else if tag = "h6" then ("====== " ++ getTextContentList cs ++ "\n\n", d)
    else if tag = "p" then
      let r := processChildrenF f cs d
      (if r.1 = "" then "" else r.1 ++ "\n\n", r.2)
    else if tag = "strong" || tag = "b" then ("*" ++ getTextContentList cs ++ "*", d)
    else if tag = "em" || tag = "i" then ("_" ++ getTextContentList cs ++ "_", d)
    else if tag = "code" then ("`" ++ getTextContentList cs ++ "`", d)
    else if tag = "pre" then
      (match findByTag cs "code" with
       | some codeNode =>
         "[source," ++ extractLanguage codeNode ++ "]\n----\n" ++
           getTextContent codeNode ++ "\n----\n\n"
       | none => "----\n" ++ getTextContentList cs ++ "\n----\n\n", d)
    else if tag = "a" then
      let href := (lookupAttr attrs "href").getD ""
      let linkText := getTextContentList cs
      (if href = linkText || linkText = "" then href
       else href ++ "[" ++ linkText ++ "]", d)
    else if tag = "ul" then
      -- processList(node, '*'): listDepth++, marker.repeat(listDepth), items, listDepth--
      let d1 := d + 1
      let pre := repeatStr "*" d1.toNat
      let r := processItemsF f (directLi cs) pre d1
      (r.1 ++ "\n", r.2 - 1)
    else if tag = "ol" then
      -- processList(node, '.')
      let d1 := d + 1
      let pre := repeatStr "." d1.toNat
      let r := processItemsF f (directLi cs) pre d1
      (r.1 ++ "\n", r.2 - 1)
    else if tag = "li" then processChildrenF f cs d
    else if tag = "table" then (processTable cs, d)
    else if tag = "blockquote" then
      -- processBlockquote: drop blank lines of the rendered children
      let r := processChildrenF f cs d
      let lines := (splitNl r.1).filter (fun l => jsTrim l != "")
      ("[quote]\n____\n" ++ joinNl lines ++ "\n____\n\n", r.2)
    else if tag = "div" then
      if hasClass attrs "admonitionblock" then
        -- processAdmonition: icon label, then the `.content` sub-element
        match findByClass cs "content" with
        | none => ("", d)
        | some contentDiv =>
          let r := processNodeF f contentDiv d
          ("[" ++ admonitionLabel cs ++ "]\n====\n" ++ jsTrim r.1 ++ "\n====\n\n", r.2)
      else if hasClass attrs "listingblock" || hasClass attrs "literalblock" then
        ("----\n" ++
          (match findByClass cs "content" with
           | some c => getTextContent c
           | none => getTextContentList cs) ++ "\n----\n\n", d)
      else processChildrenF f cs d
    else if tag = "br" then (" +\n", d)
    else if tag = "hr" then ("\x27\x27\x27\n\n", d)
    else if tag = "img" then
      ("image::" ++ (lookupAttr attrs "src").getD "" ++ "[" ++
        (lookupAttr attrs "alt").getD "" ++ "]\n\n", d)
    else processChildrenF f cs d

/-- `processChildren(node)`: render the children in order, concatenating
outputs and threading the depth left to right. -/
def processChildrenF : Nat → List Node → Int → String × Int
  | 0, _, d => ("", d)
  | Nat.succ _, [], d => ("", d)
  | Nat.succ f, c :: rest, d =>
    let r := processNodeF f c d
    let rs := processChildrenF f rest r.2
    (r.1 ++ rs.1, rs.2)

/-- The `items.forEach` loop of `processList`: one `"<marker-run> <trimmed>\n"`
line per item, the marker run fixed on entry. -/
def processItemsF : Nat → List Node → String → Int → String × Int
  | 0, _, _, d => ("", d)
  | Nat.succ _, [], _, d => ("", d)
  | Nat.succ f, item :: rest, pre, d =>
    let r := processNodeF f item d
    let rs := processItemsF f rest pre r.2
    (pre ++ " " ++ jsTrim r.1 ++ "\n" ++ rs.1, rs.2)
end

/-! ## The converter entry point -/

mutual
/-- Size of a node, counting every node and list cell: an upper bound on
the fuel any render can consume. -/
def nodeWeight : Node → Nat
  | .text _ => 1
  | .elem _ _ cs => 1 + listWeight cs
/-- Size of a node list. -/
def listWeight : List Node → Nat
  | [] => 1
  | c :: rest => 1 + nodeWeight c + listWeight rest
end

/-- `convert(html)` on an already-parsed fragment, at an explicit starting
depth: `parse` yields a root element with empty tag name whose children are
the fragment's top-level nodes, and `processNode(root)` renders it.  The
depth argument models the converter instance's `listDepth` field at call
time (`0` on a fresh instance). -/
def convertS (frag : List Node) (d : Int) : String × Int :=
  processNodeF (1 + listWeight frag) (Node.elem "" [] frag) d

/-- `createHtmlToAsciiDocConverter().convert(html)`: one conversion on a
fresh converter instance. -/
def convert (frag : List Node) : String := (convertS frag 0).1

/-- Converting a sequence of documents back-to-back on one shared converter
instance, threading the instance's `listDepth` across calls, as
`generateAsciiDoc` does with its single `converter`. -/
def convertSeq : List (List Node) → Int → List String × Int
  | [], d => ([], d)
  | doc :: docs, d =>
    let r := convertS doc d
    let rest := convertSeq docs r.2
    (r.1 :: rest.1, rest.2)

/-! ## Depth instrumentation

`depthsSeenF` records, in order, every value the `listDepth` counter takes
during a render (the counter changes only at `processList`'s `++` and `--`).
It is a verification instrument, not part of the source: its branch
structure mirrors `processNodeF` exactly, with every branch that does not
touch or thread the counter contributing no events. -/

mutual
/-- All values taken by the list-depth counter while rendering one node. -/
def depthsSeenF : Nat → Node → Int → List Int
  | 0, _, _ => []
  | Nat.succ _, Node.text _, _ => []
  | Nat.succ f, Node.elem tag0 attrs cs, d =>
    let tag := jsToLower tag0
    if tag = "h1" then []
    else if tag = "h2" then []
    else if tag = "h3" then []
    else if tag = "h4" then []
    else if tag = "h5" then []
    else if tag = "h6" then []
    else if tag = "p" then depthsChildrenF f cs d
    else if tag = "strong" || tag = "b" then []
    else if tag = "em" || tag = "i" then []
    else if tag = "code" then []
    else if tag = "pre" then []
    else if tag = "a" then []
    else if tag = "ul" then (d + 1) :: (depthsItemsF f (directLi cs) (d + 1) ++ [d])
    else if tag = "ol" then (d + 1) :: (depthsItemsF f (directLi cs) (d + 1) ++ [d])
    else if tag = "li" then depthsChildrenF f cs d
    else if tag = "table" then []
    else if tag = "blockquote" then depthsChildrenF f cs d
    else if tag = "div" then
      if hasClass attrs "admonitionblock" then
        match findByClass cs "content" with
        | none => []
        | some contentDiv => depthsSeenF f contentDiv d
      else if hasClass attrs "listingblock" || hasClass attrs "literalblock" then []
      else depthsChildrenF f cs d
    else if tag = "br" then []
    else if tag = "hr" then []
    else if tag = "img" then []
    else depthsChildrenF f cs d

/-- Depth events of a child list, threading the counter as
`processChildrenF` does. -/
def depthsChildrenF : Nat → List Node → Int → List Int
  | 0, _, _ => []
  | Nat.succ _, [], _ => []
  | Nat.succ f, c :: rest, d =>
    depthsSeenF f c d ++ depthsChildrenF f rest (processNodeF f c d).2

/-- Depth events of a list-item loop, threading the counter as
`processItemsF` does. -/
def depthsItemsF : Nat → List Node → Int → List Int
  | 0, _, _ => []
  | Nat.succ _, [], _ => []
  | Nat.succ f, item :: rest, d =>
    depthsSeenF f item d ++ depthsItemsF f rest (processNodeF f item d).2
end

/-! ## The orchestrator's title step (`generate-asciidoc.js`) -/

/-- Title detection: the first `h1` descendant's trimmed text content
(`mainContent.querySelector('h1')`, then `textContent.trim()`), empty when
there is none. -/
def detectTitle (mainContent : List Node) : String :=
  match findByTag mainContent "h1" with
  | some h => jsTrim (getTextContent h)
  | none => ""

/-- The document-header step of `generateAsciiDoc`: when a page title was
detected, drop the first line of the converter output if it already is a
title line (`startsWith('= ')`), then prepend `= <title>` and a newline. -/
def addTitle (pageTitle : String) (asciidoc : String) : String :=
  if pageTitle = "" then asciidoc
  else
    let lines := splitNl asciidoc
    let body := if startsTitle (lines.headD "") then joinNl (lines.drop 1) else asciidoc
    "= " ++ pageTitle ++ "\n" ++ body

/-! ## Specification-side definitions used for comparison -/

/-- The tags of `processNode`'s dispatch table (the `switch` cases); every
other tag falls through to transparent pass-through. -/
def dispatchTags : List String :=
  ["h1", "h2", "h3", "h4", "h5", "h6", "p", "strong", "b", "em", "i", "code",
   "pre", "a", "ul", "ol", "li", "table", "blockquote", "div", "br", "hr", "img"]

/-- Modelled from the spec's words for claim C5 ("a class token of the code
element matching `language-<word>`"): language selection that requires a
whole whitespace-delimited class token of the form `language-<word>`. -/
def specTokenLanguage (classAttr dataLang : String) : String :=
  let tokens := (splitWsL classAttr.data).map String.mk
  match tokens.find? (fun t =>
      langKey.isPrefixOf t.data && !(t.data.drop 9).isEmpty && (t.data.drop 9).all isWordChar) with
  | some t => String.mk (t.data.drop 9)
  | none => if dataLang = "" then "text" else dataLang

/-- The amended language rule for claim C5, stated independently of
`langMatch`'s recursion: scan positions of the `class` attribute left to
right for the substring `language-` followed by at least one word
character, and capture the maximal word-character run there. -/
def specSubstringLanguage (classAttr dataLang : String) : String :=
  let l := classAttr.data
  match (List.range l.length).findSome? (fun i =>
      if langKey.isPrefixOf (l.drop i) && !((l.drop (i + 9)).takeWhile isWordChar).isEmpty then
        some (String.mk ((l.drop (i + 9)).takeWhile isWordChar))
      else none) with
  | some w => w
  | none => if dataLang = "" then "text" else dataLang

/-! ## Helper lemmas -/

set_option maxHeartbeats 2000000 in
/-- The three renderers leave the threaded depth exactly where they found
it: every `listDepth++` of `processList` is paired with the `--` on exit,
and all other branches only thread the counter. -/
theorem depth_restore :
    ∀ fuel : Nat,
      (∀ n d, (processNodeF fuel n d).2 = d) ∧
      (∀ cs d, (processChildrenF fuel cs d).2 = d) ∧
      (∀ items pre d, (processItemsF fuel items pre d).2 = d) := by
  intro fuel
  induction fuel with
  | zero => exact ⟨fun _ _ => rfl, fun _ _ => rfl, fun _ _ _ => rfl⟩
  | succ f ih =>
    obtain ⟨ihn, ihc, ihi⟩ := ih
    refine ⟨?_, ?_, ?_⟩
    · intro n d
      cases n with
      | text s => rfl
      | elem tag0 attrs cs =>
        cases hfc : findByClass cs "content" with
        | none =>
          simp only [processNodeF, hfc, apply_ite (Prod.snd : String × Int → Int)]
          simp only [ihc, ihi, ihn, add_sub_cancel_right, ite_self]
        | some c =>
          simp only [processNodeF, hfc, apply_ite (Prod.snd : String × Int → Int)]
          simp only [ihc, ihi, ihn, add_sub_cancel_right, ite_self]
    · intro cs d
      cases cs with
      | nil => rfl
      | cons c rest => exact (ihc rest ((processNodeF f c d).2)).trans (ihn c d)
    · intro items pre d
      cases items with
      | nil => rfl
      | cons item rest => exact (ihi rest pre ((processNodeF f item d).2)).trans (ihn item d)

/-- Depth restoration, single-node form. -/
theorem processNodeF_snd (fuel : Nat) (n : Node) (d : Int) :
    (processNodeF fuel n d).2 = d := (depth_restore fuel).1 n d

/-- A bound that holds of both branches of an `if` holds of the `if`. -/
theorem allge_ite (c : Prop) [Decidable c] (a b : List Int) (d : Int)
    (ha : ∀ x ∈ a, d ≤ x) (hb : ∀ x ∈ b, d ≤ x) : ∀ x ∈ (if c then a else b), d ≤ x := by
  split
  · exact ha
  · exact hb

set_option maxHeartbeats 2000000 in
/-- Every value the list-depth counter takes during a render is at least
the depth the render was entered with: the counter only ever goes up on
entering a list and comes back down to where it was. -/
theorem depths_bound :
    ∀ fuel : Nat,
      (∀ n d, ∀ x ∈ depthsSeenF fuel n d, d ≤ x) ∧
      (∀ cs d, ∀ x ∈ depthsChildrenF fuel cs d, d ≤ x) ∧
      (∀ items d, ∀ x ∈ depthsItemsF fuel items d, d ≤ x) := by
  intro fuel
  induction fuel with
  | zero =>
    refine ⟨fun n d x hx => ?_, fun cs d x hx => ?_, fun items d x hx => ?_⟩ <;>
      simp [depthsSeenF, depthsChildrenF, depthsItemsF] at hx
  | succ f ih =>
    obtain ⟨ihn, ihc, ihi⟩ := ih
    refine ⟨?_, ?_, ?_⟩
    · intro n d
      cases n with
      | text s => intro x hx; simp [depthsSeenF] at hx
      | elem tag0 attrs cs =>
        cases hfc : findByClass cs "content" with
        | none =>
          simp only [depthsSeenF, hfc]
          repeat' apply allge_ite
          all_goals
            first
              | (simp; done)
              | exact fun x hx => ihc cs d x hx
              | (intro x hx
                 rcases List.mem_cons.mp hx with h | h
                 · omega
                 · rcases List.mem_append.mp h with h2 | h2
                   · have hb := ihi (directLi cs) (d + 1) x h2
                     omega
                   · have hxd : x = d := by simpa using h2
                     omega)
        | some c =>
          simp only [depthsSeenF, hfc]
          repeat' apply allge_ite
          all_goals
            first
              | (simp; done)
              | exact fun x hx => ihc cs d x hx
              | exact fun x hx => ihn c d x hx
              | (intro x hx
                 rcases List.mem_cons.mp hx with h | h
                 · omega
                 · rcases List.mem_append.mp h with h2 | h2
                   · have hb := ihi (directLi cs) (d + 1) x h2
                     omega
                   · have hxd : x = d := by simpa using h2
                     omega)
    · intro cs d
      cases cs with
      | nil => intro x hx; simp [depthsChildrenF] at hx
      | cons c rest =>
        intro x hx
        simp only [depthsChildrenF] at hx
        rcases List.mem_append.mp hx with h | h
        · exact ihn c d x h
        · rw [processNodeF_snd] at h
          exact ihc rest d x h
    · intro items d
      cases items with
      | nil => intro x hx; simp [depthsItemsF] at hx
      | cons item rest =>
        intro x hx
        simp only [depthsItemsF] at hx
        rcases List.mem_append.mp hx with h | h
        · exact ihn item d x h
        · rw [processNodeF_snd] at h
          exact ihi rest d x h

/-- Accumulating `forEach` appends equal the concatenation of the mapped
pieces after the initial accumulator. -/
theorem foldl_append_strJoin {α : Type} (g : α → String) :
    ∀ (l : List α) (init : String),
      l.foldl (fun acc x => acc ++ g x) init = init ++ strJoin (l.map g)
  | [], init => by simp [strJoin]
  | a :: rest, init => by
    simp only [List.foldl_cons, List.map_cons, strJoin,
      foldl_append_strJoin g rest (init ++ g a), String.append_assoc]


/-- `split('\n')` never returns the empty list. -/
theorem splitNlL_ne_nil : ∀ l : List Char, splitNlL l ≠ []
  | [] => by simp [splitNlL]
  | c :: cs => by
    unfold splitNlL
    split
    · simp
    · split
      · simp
      · simp

/-- Pieces of `split('\n')` contain no newline. -/
theorem mem_splitNlL_no_nl : ∀ l p, p ∈ splitNlL l → '\n' ∉ p := by
  intro l
  induction l with
  | nil =>
    intro p hp
    simp [splitNlL] at hp
    simp [hp]
  | cons c cs ih =>
    intro p hp
    by_cases hc : c = '\n'
    · rw [splitNlL, if_pos hc] at hp
      rcases List.mem_cons.mp hp with h | h
      · simp [h]
      · exact ih p h
    · rw [splitNlL, if_neg hc] at hp
      rcases he : splitNlL cs with _ | ⟨l0, ls⟩
      · exact absurd he (splitNlL_ne_nil cs)
      · rw [he] at hp
        rcases List.mem_cons.mp hp with h | h
        · subst h
          intro hmem
          rcases List.mem_cons.mp hmem with h2 | h2
          · exact hc h2.symm
          · exact ih l0 (he ▸ List.mem_cons_self l0 ls) h2
        · exact ih p (he ▸ List.mem_cons_of_mem l0 h)

/-- `split('\n')` of a newline-free list is that single piece. -/
theorem splitNlL_no_nl : ∀ l : List Char, '\n' ∉ l → splitNlL l = [l] := by
  intro l
  induction l with
  | nil => intro _; rfl
  | cons c cs ih =>
    intro h
    have hc : c ≠ '\n' := fun hcc => h (hcc ▸ List.mem_cons_self c cs)
    have hcs : '\n' ∉ cs := fun hmem => h (List.mem_cons_of_mem c hmem)
    rw [splitNlL, if_neg hc, ih hcs]

/-- Splitting at the first newline: a newline-free head piece comes off. -/
theorem splitNlL_append : ∀ (l1 l2 : List Char), '\n' ∉ l1 →
    splitNlL (l1 ++ '\n' :: l2) = l1 :: splitNlL l2 := by
  intro l1
  induction l1 with
  | nil => intro l2 _; simp [splitNlL]
  | cons c l1 ih =>
    intro l2 h
    have hc : c ≠ '\n' := fun hcc => h (hcc ▸ List.mem_cons_self c l1)
    have hl1 : '\n' ∉ l1 := fun hmem => h (List.mem_cons_of_mem c hmem)
    rw [List.cons_append, splitNlL, if_neg hc, ih l2 hl1]

/-- `split('\n')` is a left inverse of `join('\n')` on nonempty lists of
newline-free pieces. -/
theorem splitNlL_joinNlL : ∀ ps : List (List Char), ps ≠ [] →
    (∀ p ∈ ps, '\n' ∉ p) → splitNlL (joinNlL ps) = ps := by
  intro ps
  induction ps with
  | nil => intro h; exact absurd rfl h
  | cons p qs ih =>
    intro _ hfree
    cases qs with
    | nil => exact splitNlL_no_nl p (hfree p (List.mem_cons_self p []))
    | cons q qs2 =>
      rw [show joinNlL (p :: q :: qs2) = p ++ '\n' :: joinNlL (q :: qs2) from rfl,
        splitNlL_append p _ (hfree p (List.mem_cons_self p (q :: qs2))),
        ih (by simp) (fun r hr => hfree r (List.mem_cons_of_mem p hr))]

/-- The recursive regex scan of `langMatch` equals a leftmost position
scan over all starting indices. -/
theorem langMatch_eq_scan : ∀ l : List Char,
    langMatch l =
      (List.range l.length).findSome? (fun i =>
        if langKey.isPrefixOf (l.drop i) && !((l.drop (i + 9)).takeWhile isWordChar).isEmpty then
          some (String.mk ((l.drop (i + 9)).takeWhile isWordChar))
        else none) := by
  intro l
  induction l with
  | nil => rfl
  | cons c cs ih =>
    rw [langMatch, show (c :: cs).length = cs.length + 1 from rfl, List.range_succ_eq_map,
      List.findSome?_cons]
    simp only [List.drop_zero, Nat.zero_add]
    cases h0 : (langKey.isPrefixOf (c :: cs) && !(((c :: cs).drop 9).takeWhile isWordChar).isEmpty) with
    | true => simp [h0]
    | false =>
      simp only [h0, Bool.false_eq_true, if_false]
      rw [List.findSome?_map, ih]
      congr 1

/-- `split('\n')` of a string never yields the empty list. -/
theorem splitNl_ne_nil (s : String) : splitNl s ≠ [] := by
  unfold splitNl
  simp [splitNlL_ne_nil]

/-- The prepended `= <title>\n` comes off as the first line of the result
when the title itself contains no newline. -/
theorem splitNl_title_append (t body : String) (ht : '\n' ∉ t.data) :
    splitNl ("= " ++ t ++ "\n" ++ body) = ("= " ++ t) :: splitNl body := by
  have hfree : '\n' ∉ ('=' :: ' ' :: t.data) := by
    intro h
    rcases List.mem_cons.mp h with h1 | h
    · exact absurd h1 (by decide)
    rcases List.mem_cons.mp h with h2 | h
    · exact absurd h2 (by decide)
    · exact ht h
  have hd : ("= " ++ t ++ "\n" ++ body).data = ('=' :: ' ' :: t.data) ++ '\n' :: body.data := by
    simp [String.data_append]
  have hmk : String.mk ('=' :: ' ' :: t.data) = "= " ++ t := by
    have : ("= " ++ t).data = '=' :: ' ' :: t.data := by simp [String.data_append]
    rw [← this]
  unfold splitNl
  rw [hd, splitNlL_append _ _ hfree, List.map_cons, hmk]

/-- A title string starts with `'= '`. -/
theorem startsTitle_title (t : String) : startsTitle ("= " ++ t) = true := by
  cases t with
  | mk l => rfl

/-- Re-splitting the joined tail of a split gives the tail back. -/
theorem splitNl_joinNl_drop (adoc : String) (h : (splitNl adoc).drop 1 ≠ []) :
    splitNl (joinNl ((splitNl adoc).drop 1)) = (splitNl adoc).drop 1 := by
  unfold splitNl joinNl at *
  have hdm : (((splitNlL adoc.data).map String.mk).drop 1).map String.data =
      (splitNlL adoc.data).drop 1 := by
    rw [← List.map_drop, List.map_map]
    have : (String.data ∘ String.mk) = id := by funext l; rfl
    rw [this, List.map_id]
  rw [hdm]
  have hnn : (splitNlL adoc.data).drop 1 ≠ [] := by
    intro hempty
    rw [← List.map_drop, hempty] at h
    exact h rfl
  rw [splitNlL_joinNlL _ hnn
    (fun p hp => mem_splitNlL_no_nl adoc.data p (List.mem_of_mem_drop hp))]
  rw [← List.map_drop]

/-! ## Claim theorems -/

/-- C1: the render is total over any parsed tree (it is a Lean function by
construction); any tag outside the dispatch table renders exactly as its
children in order (transparent pass-through); and absent attributes degrade
to the empty string — in particular an `img` with neither `src` nor `alt`
renders with both defaulted to empty. -/
theorem c1_total_passthrough :
    (∀ (f : Nat) (tag : String) (attrs : List (String × String)) (cs : List Node) (d : Int),
      jsToLower tag ∉ dispatchTags →
      processNodeF (f + 1) (.elem tag attrs cs) d = processChildrenF f cs d) ∧
    (∀ (attrs : List (String × String)) (name : String),
      lookupAttr attrs name = none → (lookupAttr attrs name).getD "" = "") ∧
    (∀ (f : Nat) (attrs : List (String × String)) (cs : List Node) (d : Int),
      lookupAttr attrs "src" = none → lookupAttr attrs "alt" = none →
      processNodeF (f + 1) (.elem "img" attrs cs) d = ("image::[]\n\n", d)) := by
  refine ⟨?_, ?_, ?_⟩
  · intro f tag attrs cs d hmem
    have hne : ∀ s, s ∈ dispatchTags → jsToLower tag ≠ s := fun s hs heq => hmem (heq ▸ hs)
    have hb : ∀ s t : String, s ∈ dispatchTags → t ∈ dispatchTags →
        ¬((decide (jsToLower tag = s) || decide (jsToLower tag = t)) = true) := by
      intro s t hs ht h
      have h2 : jsToLower tag = s ∨ jsToLower tag = t := by simpa using h
      rcases h2 with h1 | h1
      · exact hne s hs h1
      · exact hne t ht h1
    simp only [processNodeF]
    rw [if_neg (hne "h1" (by decide)), if_neg (hne "h2" (by decide)),
      if_neg (hne "h3" (by decide)), if_neg (hne "h4" (by decide)),
      if_neg (hne "h5" (by decide)), if_neg (hne "h6" (by decide)),
      if_neg (hne "p" (by decide)), if_neg (hb "strong" "b" (by decide) (by decide)),
      if_neg (hb "em" "i" (by decide) (by decide)), if_neg (hne "code" (by decide)),
      if_neg (hne "pre" (by decide)), if_neg (hne "a" (by decide)),
      if_neg (hne "ul" (by decide)), if_neg (hne "ol" (by decide)),
      if_neg (hne "li" (by decide)), if_neg (hne "table" (by decide)),
      if_neg (hne "blockquote" (by decide)), if_neg (hne "div" (by decide)),
      if_neg (hne "br" (by decide)), if_neg (hne "hr" (by decide)),
      if_neg (hne "img" (by decide))]
  · intro attrs name h
    rw [h]
    rfl
  · intro f attrs cs d hsrc halt
    have hd : processNodeF (f + 1) (.elem "img" attrs cs) d =
        ("image::" ++ (lookupAttr attrs "src").getD "" ++ "[" ++
          (lookupAttr attrs "alt").getD "" ++ "]\n\n", d) := rfl
    rw [hd, hsrc, halt]
    rfl

/-- C1 witness: pass-through at `span`, default at a missing `href`, and an
`img` with no attributes. -/
theorem c1_total_passthrough_witness :
    (jsToLower "span" ∉ dispatchTags ∧
      processNodeF 5 (.elem "span" [] [.text "x"]) 0 = processChildrenF 4 [.text "x"] 0) ∧
    (lookupAttr [] "href" = none ∧ (lookupAttr ([] : List (String × String)) "href").getD "" = "") ∧
    (lookupAttr [] "src" = none ∧
      processNodeF 3 (.elem "img" [] []) 0 = ("image::[]\n\n", 0)) :=
  ⟨⟨by decide, c1_total_passthrough.1 4 "span" [] [.text "x"] 0 (by decide)⟩,
   ⟨by decide, c1_total_passthrough.2.1 [] "href" (by decide)⟩,
   ⟨by decide, c1_total_passthrough.2.2 2 [] [] 0 (by decide) (by decide)⟩⟩

/-- C2 counterexample: on the nested input the code emits the single item
line `* A** B` — the nested list's line is appended to the parent item's
text with nothing in between (the `li` renders `"A** B\n\n"`, which is then
trimmed), so there is no line `* A` anywhere in the output, contradicting
the claimed `* A` directly followed by a line `** B`. -/
theorem c2_nested_list_counterexample :
    convert [.elem "ul" [] [.elem "li" [] [.text "A",
        .elem "ul" [] [.elem "li" [] [.text "B"]]]]] = "* A** B\n\n" ∧
    splitNl (convert [.elem "ul" [] [.elem "li" [] [.text "A",
        .elem "ul" [] [.elem "li" [] [.text "B"]]]]]) = ["* A** B", "", ""] ∧
    "* A" ∉ splitNl (convert [.elem "ul" [] [.elem "li" [] [.text "A",
        .elem "ul" [] [.elem "li" [] [.text "B"]]]]]) := by decide

/-- C2 (amended): the flat round trip is exact, and the nested input
produces the single item line `* A** B` (the nested list's `**`-prefixed
line is concatenated directly after the parent's inline text, because the
parent `li`'s rendered content ends without a newline before trimming),
followed by the list's single trailing blank line. -/
theorem c2_list_roundtrip_amended :
    convert [.elem "ul" [] [.elem "li" [] [.text "A"], .elem "li" [] [.text "B"]]] =
      "* A\n* B\n\n" ∧
    convert [.elem "ul" [] [.elem "li" [] [.text "A",
        .elem "ul" [] [.elem "li" [] [.text "B"]]]]] = "* A** B\n\n" := by decide

/-- C3: the concrete one-header-one-data table renders exactly as claimed,
and in general a table with at least one `tr` descendant renders as the
`[cols="*"]` header, then one line per cell in row-major document order
(`|*` + trimmed text for `th`, `|` + trimmed text for `td`), then the
closing `|===` and two newlines. -/
theorem c3_table_render :
    convert [.elem "table" [] [.elem "tr" [] [.elem "th" [] [.text "H"]],
        .elem "tr" [] [.elem "td" [] [.text "D"]]]] =
      "[cols=\"*\"]\n|===\n|*H\n|D\n|===\n\n" ∧
    (∀ (f : Nat) (attrs : List (String × String)) (cs : List Node) (d : Int),
      descendantsTag cs ["tr"] ≠ [] →
      processNodeF (f + 1) (.elem "table" attrs cs) d =
        ("[cols=\"*\"]\n|===\n" ++
          strJoin ((descendantsTag cs ["tr"]).map
            (fun row => strJoin ((rowCells row).map cellLine))) ++
          "|===\n\n", d)) := by
  constructor
  · decide
  · intro f attrs cs d h
    have hd : processNodeF (f + 1) (.elem "table" attrs cs) d = (processTable cs, d) := rfl
    rw [hd]
    unfold processTable
    rw [if_neg (by simp [List.isEmpty_iff, h])]
    simp only [foldl_append_strJoin]

/-- C3 witness: the general cell-line form applied to the concrete table. -/
theorem c3_table_render_witness :
    descendantsTag [Node.elem "tr" [] [Node.elem "th" [] [Node.text "H"]],
        Node.elem "tr" [] [Node.elem "td" [] [Node.text "D"]]] ["tr"] ≠ [] ∧
    processNodeF 20 (.elem "table" [] [.elem "tr" [] [.elem "th" [] [.text "H"]],
        .elem "tr" [] [.elem "td" [] [.text "D"]]]) 0 =
      ("[cols=\"*\"]\n|===\n" ++
        strJoin ((descendantsTag [Node.elem "tr" [] [Node.elem "th" [] [Node.text "H"]],
            Node.elem "tr" [] [Node.elem "td" [] [Node.text "D"]]] ["tr"]).map
          (fun row => strJoin ((rowCells row).map cellLine))) ++
        "|===\n\n", 0) :=
  ⟨by decide,
   c3_table_render.2 19 [] [.elem "tr" [] [.elem "th" [] [.text "H"]],
     .elem "tr" [] [.elem "td" [] [.text "D"]]] 0 (by decide)⟩

/-- C4 counterexample: `strong` renders via plain-text extraction of its
whole subtree, so `<strong><em>x</em></strong>` renders as `*x*` — the
inner `em` markers are not produced and the claimed `*_x_*` is not. -/
theorem c4_emphasis_nesting_counterexample :
    convert [.elem "strong" [] [.elem "em" [] [.text "x"]]] = "*x*" ∧
    convert [.elem "strong" [] [.elem "em" [] [.text "x"]]] ≠ "*_x_*" := by decide

/-- C4 (amended): `strong` and `em` wrap the concatenated plain text of all
descendant text nodes in `*`/`_`; nesting does not compose markers — inner
markup is flattened to its text, so `<strong><em>x</em></strong>` yields
`*x*`. -/
theorem c4_emphasis_amended :
    (∀ (f : Nat) (attrs : List (String × String)) (cs : List Node) (d : Int),
      processNodeF (f + 1) (.elem "strong" attrs cs) d =
        ("*" ++ getTextContentList cs ++ "*", d)) ∧
    (∀ (f : Nat) (attrs : List (String × String)) (cs : List Node) (d : Int),
      processNodeF (f + 1) (.elem "em" attrs cs) d =
        ("_" ++ getTextContentList cs ++ "_", d)) ∧
    convert [.elem "strong" [] [.text "x"]] = "*x*" ∧
    convert [.elem "em" [] [.text "x"]] = "_x_" ∧
    convert [.elem "strong" [] [.elem "em" [] [.text "x"]]] = "*x*" :=
  ⟨fun _ _ _ _ => rfl, fun _ _ _ _ => rfl, by decide, by decide, by decide⟩

/-- C5 counterexample: the source matches `/language-(\w+)/` anywhere in
the `class` attribute, not against whole class tokens.  With the single
class token `Xlanguage-go` (which is not of the form `language-<word>`, so
the claim's token rule selects `text`), the code emits `[source,go]`. -/
theorem c5_language_token_counterexample :
    convert [.elem "pre" [] [.elem "code" [("class", "Xlanguage-go")] [.text "x"]]] =
      "[source,go]\n----\nx\n----\n\n" ∧
    specTokenLanguage "Xlanguage-go" "" = "text" ∧
    convert [.elem "pre" [] [.elem "code" [("class", "Xlanguage-go")] [.text "x"]]] ≠
      "[source,text]\n----\nx\n----\n\n" := by decide

/-- C5 (amended): for a `pre` with a `code` descendant the language of the
emitted `[source,LANG]` block is chosen by priority: the leftmost substring
match of `language-<word>` anywhere in the `class` attribute yields
`<word>`; otherwise a present and non-empty `data-lang` attribute is used;
otherwise `text`.  The two concrete examples of the claim hold as stated. -/
theorem c5_language_extraction_amended :
    (∀ (f : Nat) (attrs : List (String × String)) (cs : List Node) (d : Int) (codeNode : Node),
      findByTag cs "code" = some codeNode →
      processNodeF (f + 1) (.elem "pre" attrs cs) d =
        ("[source," ++ extractLanguage codeNode ++ "]\n----\n" ++ getTextContent codeNode ++
          "\n----\n\n", d)) ∧
    (∀ codeNode : Node,
      extractLanguage codeNode =
        specSubstringLanguage ((getAttribute codeNode "class").getD "")
          ((getAttribute codeNode "data-lang").getD "")) ∧
    convert [.elem "pre" [] [.elem "code" [("class", "language-go")] [.text "x"]]] =
      "[source,go]\n----\nx\n----\n\n" ∧
    convert [.elem "pre" [] [.elem "code" [] [.text "x"]]] =
      "[source,text]\n----\nx\n----\n\n" := by
  refine ⟨?_, ?_, by decide, by decide⟩
  · intro f attrs cs d codeNode h
    have hd : processNodeF (f + 1) (.elem "pre" attrs cs) d =
        (match findByTag cs "code" with
         | some codeNode =>
           "[source," ++ extractLanguage codeNode ++ "]\n----\n" ++
             getTextContent codeNode ++ "\n----\n\n"
         | none => "----\n" ++ getTextContentList cs ++ "\n----\n\n", d) := rfl
    rw [hd, h]
  · intro codeNode
    unfold extractLanguage specSubstringLanguage
    simp only [langMatch_eq_scan]

/-- C5 witness: the source-block form applied at the concrete `language-go`
example. -/
theorem c5_language_extraction_witness :
    findByTag [Node.elem "code" [("class", "language-go")] [Node.text "x"]] "code" =
      some (Node.elem "code" [("class", "language-go")] [Node.text "x"]) ∧
    processNodeF 9 (.elem "pre" [] [.elem "code" [("class", "language-go")] [.text "x"]]) 0 =
      ("[source," ++
        extractLanguage (Node.elem "code" [("class", "language-go")] [Node.text "x"]) ++
        "]\n----\n" ++
        getTextContent (Node.elem "code" [("class", "language-go")] [Node.text "x"]) ++
        "\n----\n\n", 0) :=
  ⟨by decide,
   c5_language_extraction_amended.1 8 [] [.elem "code" [("class", "language-go")] [.text "x"]]
     0 (Node.elem "code" [("class", "language-go")] [Node.text "x"]) (by decide)⟩

/-- C6: a `div` carrying the `admonitionblock` class renders empty when no
descendant carries class `content`; otherwise it renders
`[LABEL]\n====\n<trimmed content render>\n====\n\n` where the label is the
icon element's `title` uppercased, falling back to `NOTE` when there is no
icon or the uppercased title is empty.  Icon title `Warning` yields
`WARNING` on the concrete admonition. -/
theorem c6_admonition_render :
    (∀ (f : Nat) (attrs : List (String × String)) (cs : List Node) (d : Int),
      hasClass attrs "admonitionblock" = true →
      findByClass cs "content" = none →
      processNodeF (f + 1) (.elem "div" attrs cs) d = ("", d)) ∧
    (∀ (f : Nat) (attrs : List (String × String)) (cs : List Node) (d : Int) (c : Node),
      hasClass attrs "admonitionblock" = true →
      findByClass cs "content" = some c →
      processNodeF (f + 1) (.elem "div" attrs cs) d =
        ("[" ++ admonitionLabel cs ++ "]\n====\n" ++ jsTrim (processNodeF f c d).1 ++
          "\n====\n\n", (processNodeF f c d).2)) ∧
    (∀ cs : List Node, findIconI cs = none → admonitionLabel cs = "NOTE") ∧
    (∀ (cs : List Node) (icon : Node), findIconI cs = some icon →
      admonitionLabel cs =
        (if jsToUpper ((getAttribute icon "title").getD "") = "" then "NOTE"
         else jsToUpper ((getAttribute icon "title").getD ""))) ∧
    convert [.elem "div" [("class", "admonitionblock warning")]
        [.elem "div" [("class", "icon")] [.elem "i" [("title", "Warning")] []],
         .elem "div" [("class", "content")] [.text "Be careful"]]] =
      "[WARNING]\n====\nBe careful\n====\n\n" := by
  have hd : ∀ (f : Nat) (attrs : List (String × String)) (cs : List Node) (d : Int),
      processNodeF (f + 1) (.elem "div" attrs cs) d =
        (if hasClass attrs "admonitionblock" then
          match findByClass cs "content" with
          | none => ("", d)
          | some contentDiv =>
            ("[" ++ admonitionLabel cs ++ "]\n====\n" ++
              jsTrim (processNodeF f contentDiv d).1 ++ "\n====\n\n",
              (processNodeF f contentDiv d).2)
         else if hasClass attrs "listingblock" || hasClass attrs "literalblock" then
          ("----\n" ++
            (match findByClass cs "content" with
             | some c => getTextContent c
             | none => getTextContentList cs) ++ "\n----\n\n", d)
         else processChildrenF f cs d) := fun _ _ _ _ => rfl
  refine ⟨?_, ?_, ?_, ?_, by decide⟩
  · intro f attrs cs d h1 h2
    rw [hd, if_pos h1, h2]
  · intro f attrs cs d c h1 h2
    rw [hd, if_pos h1, h2]
  · intro cs h
    unfold admonitionLabel
    rw [h]
  · intro cs icon h
    unfold admonitionLabel
    rw [h]

/-- C6 witness: the render form and label rule applied to the concrete
`Warning` admonition. -/
theorem c6_admonition_render_witness :
    hasClass [("class", "admonitionblock warning")] "admonitionblock" = true ∧
    findByClass [Node.elem "div" [("class", "icon")] [Node.elem "i" [("title", "Warning")] []],
        Node.elem "div" [("class", "content")] [Node.text "Be careful"]] "content" =
      some (Node.elem "div" [("class", "content")] [Node.text "Be careful"]) ∧
    processNodeF 20 (.elem "div" [("class", "admonitionblock warning")]
        [.elem "div" [("class", "icon")] [.elem "i" [("title", "Warning")] []],
         .elem "div" [("class", "content")] [.text "Be careful"]]) 0 =
      ("[" ++
        admonitionLabel [Node.elem "div" [("class", "icon")] [Node.elem "i" [("title", "Warning")] []],
          Node.elem "div" [("class", "content")] [Node.text "Be careful"]] ++
        "]\n====\n" ++
        jsTrim (processNodeF 19 (Node.elem "div" [("class", "content")] [Node.text "Be careful"]) 0).1 ++
        "\n====\n\n",
        (processNodeF 19 (Node.elem "div" [("class", "content")] [Node.text "Be careful"]) 0).2) :=
  ⟨by decide, by decide,
   c6_admonition_render.2.1 19 [("class", "admonitionblock warning")]
     [.elem "div" [("class", "icon")] [.elem "i" [("title", "Warning")] []],
      .elem "div" [("class", "content")] [.text "Be careful"]] 0
     (Node.elem "div" [("class", "content")] [Node.text "Be careful"]) (by decide) (by decide)⟩

/-- C7: the list nesting depth is restored to its entry value after any
subtree (in particular after any `ul`/`ol` subtree) finishes rendering, and
starting from a nonnegative depth every value the counter takes during the
render is nonnegative. -/
theorem c7_depth_invariant (fuel : Nat) (n : Node) (d : Int) :
    (processNodeF fuel n d).2 = d ∧
    (0 ≤ d → ∀ x ∈ depthsSeenF fuel n d, 0 ≤ x) :=
  ⟨(depth_restore fuel).1 n d,
   fun hd x hx => le_trans hd ((depths_bound fuel).1 n d x hx)⟩

/-- C7 witness: on a nested list rendered from depth `0` the counter's
trace is `[1, 2, 1, 0]` — all nonnegative — and the final depth is `0`. -/
theorem c7_depth_invariant_witness :
    (processNodeF 20 (.elem "ul" [] [.elem "li" [] [.text "A",
        .elem "ul" [] [.elem "li" [] [.text "B"]]]]) 0).2 = 0 ∧
    depthsSeenF 20 (.elem "ul" [] [.elem "li" [] [.text "A",
        .elem "ul" [] [.elem "li" [] [.text "B"]]]]) 0 = [1, 2, 1, 0] ∧
    (2 : Int) ∈ depthsSeenF 20 (.elem "ul" [] [.elem "li" [] [.text "A",
        .elem "ul" [] [.elem "li" [] [.text "B"]]]]) 0 ∧
    (0 : Int) ≤ 2 :=
  ⟨(c7_depth_invariant 20 (.elem "ul" [] [.elem "li" [] [.text "A",
      .elem "ul" [] [.elem "li" [] [.text "B"]]]]) 0).1,
   by decide, by decide,
   (c7_depth_invariant 20 (.elem "ul" [] [.elem "li" [] [.text "A",
      .elem "ul" [] [.elem "li" [] [.text "B"]]]]) 0).2 (by decide) 2 (by decide)⟩

/-- C8: converting a sequence of documents back-to-back on one shared
converter instance yields, for every document, exactly the output of
converting it alone on a fresh instance (the depth counter is back at `0`
after every call, so no list marker is ever off by a nesting level), and
repeating the whole sequence repeats the outputs byte-identically —
`convertS` being a function, two invocations on equal inputs and equal
instance state are definitionally the same computation. -/
theorem c8_no_state_leak (docs : List (List Node)) :
    (convertSeq docs 0).1 = docs.map (fun doc => (convertS doc 0).1) ∧
    (convertSeq docs 0).2 = 0 ∧
    (convertSeq (docs ++ docs) 0).1 = (convertSeq docs 0).1 ++ (convertSeq docs 0).1 := by
  have key : ∀ ds : List (List Node),
      convertSeq ds 0 = (ds.map (fun doc => (convertS doc 0).1), 0) := by
    intro ds
    induction ds with
    | nil => rfl
    | cons doc rest ih =>
      have h2 : (convertS doc 0).2 = 0 := processNodeF_snd _ _ 0
      simp only [convertSeq, List.map_cons, h2, ih]
  refine ⟨?_, ?_, ?_⟩
  · rw [key]
  · rw [key]
  · simp [key, List.map_append]

/-- C10: a `table` element with no `tr` descendant renders as the empty
string — neither the `[cols="*"]` header nor the `|===` delimiters are
emitted. -/
theorem c10_empty_table (f : Nat) (attrs : List (String × String)) (cs : List Node) (d : Int)
    (h : descendantsTag cs ["tr"] = []) :
    processNodeF (f + 1) (.elem "table" attrs cs) d = ("", d) := by
  have hd : processNodeF (f + 1) (.elem "table" attrs cs) d = (processTable cs, d) := rfl
  rw [hd]
  unfold processTable
  simp [h]

/-- C10 witness: a table whose only content is a bare `td`. -/
theorem c10_empty_table_witness :
    descendantsTag [Node.elem "td" [] [Node.text "x"]] ["tr"] = [] ∧
    processNodeF 7 (.elem "table" [] [.elem "td" [] [.text "x"]]) 0 = ("", 0) :=
  ⟨by decide, c10_empty_table 6 [] [.elem "td" [] [.text "x"]] 0 (by decide)⟩

/-- C9: when a page title was detected (`pageTitle` nonempty; titles are
single-line), the first line of the produced document is `= <title>`: a
leading title line of the converter output is replaced by it, otherwise it
is prepended; and when no line after the first is a title line, exactly one
title line results. -/
theorem c9_title_line (pageTitle adoc : String) (h1 : pageTitle ≠ "")
    (h2 : '\n' ∉ pageTitle.data) :
    (splitNl (addTitle pageTitle adoc)).head? = some ("= " ++ pageTitle) ∧
    (startsTitle ((splitNl adoc).headD "") = true → (splitNl adoc).drop 1 ≠ [] →
      splitNl (addTitle pageTitle adoc) = ("= " ++ pageTitle) :: (splitNl adoc).drop 1) ∧
    (startsTitle ((splitNl adoc).headD "") = false →
      splitNl (addTitle pageTitle adoc) = ("= " ++ pageTitle) :: splitNl adoc) ∧
    ((∀ l ∈ (splitNl adoc).drop 1, startsTitle l = false) →
      (splitNl (addTitle pageTitle adoc)).filter (fun l => startsTitle l) =
        ["= " ++ pageTitle]) := by
  have hshape : addTitle pageTitle adoc =
      "= " ++ pageTitle ++ "\n" ++
        (if startsTitle ((splitNl adoc).headD "") then joinNl ((splitNl adoc).drop 1)
         else adoc) := by
    simp only [addTitle, if_neg h1]
  have hsplit : splitNl (addTitle pageTitle adoc) =
      ("= " ++ pageTitle) ::
        splitNl (if startsTitle ((splitNl adoc).headD "") then joinNl ((splitNl adoc).drop 1)
          else adoc) := by
    rw [hshape]
    exact splitNl_title_append _ _ h2
  refine ⟨?_, ?_, ?_, ?_⟩
  · rw [hsplit]
    rfl
  · intro hst hne
    rw [hsplit, if_pos hst, splitNl_joinNl_drop adoc hne]
  · intro hst
    have hstP : ¬ startsTitle ((splitNl adoc).headD "") = true := by
      rw [hst]
      simp
    rw [hsplit, if_neg hstP]
  · intro hall
    rw [hsplit]
    have hnil : (splitNl (if startsTitle ((splitNl adoc).headD "") then
        joinNl ((splitNl adoc).drop 1) else adoc)).filter (fun l => startsTitle l) = [] := by
      by_cases hst : startsTitle ((splitNl adoc).headD "") = true
      · rw [if_pos hst]
        by_cases hd1 : (splitNl adoc).drop 1 = []
        · rw [hd1]
          decide
        · rw [splitNl_joinNl_drop adoc hd1]
          exact List.filter_eq_nil_iff.mpr (fun a ha => by simp [hall a ha])
      · rw [if_neg hst]
        obtain ⟨l0, rest, he⟩ := List.exists_cons_of_ne_nil (splitNl_ne_nil adoc)
        have hl0 : startsTitle l0 = false := by
          have hh : (splitNl adoc).headD "" = l0 := by rw [he]; rfl
          rw [hh] at hst
          simpa using hst
        have hrest : rest = (splitNl adoc).drop 1 := by rw [he]; rfl
        rw [he, List.filter_cons, hl0]
        simp only [Bool.false_eq_true, if_false]
        exact List.filter_eq_nil_iff.mpr (fun a ha => by
          have ha2 : a ∈ (splitNl adoc).drop 1 := hrest ▸ ha
          simp [hall a ha2])
    simp only [List.filter_cons]
    rw [if_pos (startsTitle_title pageTitle), hnil]

/-- C9 witness: a converter output whose first line is an `h1`-produced
title line gets it replaced by the detected title. -/
theorem c9_title_line_witness :
    ("My Page" : String) ≠ "" ∧ '\n' ∉ ("My Page" : String).data ∧
    startsTitle ((splitNl "= Old\nbody").headD "") = true ∧
    (splitNl "= Old\nbody").drop 1 ≠ [] ∧
    splitNl (addTitle "My Page" "= Old\nbody") = ["= My Page", "body"] :=
  ⟨by decide, by decide, by decide, by decide,
   ((c9_title_line "My Page" "= Old\nbody" (by decide) (by decide)).2.1 (by decide)
       (by decide)).trans (by decide)⟩
